import Mathlib

set_option autoImplicit false

/-!
Verification of the job-description matching subsystem of the
resume-database repository (`app.py`, `work_orders_api_extension.py`,
`demo_project_matching.py`).

Modelling conventions:
* Python strings are Lean `String`s; `str.lower()` is lowering each character
  with `Char.toLower` (the texts involved are ASCII).
* Scores in `match_items_to_job` are Python floats built by adding `1`, `2`
  and `1.5`; they are modelled exactly by twice-the-score naturals
  (`score2 = 2 * score`), which keeps all arithmetic in `ℕ`.  Semantic-mode
  similarity scores are modelled by exact rationals `ℚ`.
* Python `int(x)` truncates toward zero; on the non-negative values that
  arise here it is the floor, modelled by `Nat` division (`pctOf`) and by
  truncating `Int` division (`pyInt100`).  Exact rational arithmetic stands
  in for IEEE-double arithmetic.
* Python's `json.loads` on technology/skill fields is modelled by a parser
  for JSON arrays of strings; any other JSON input is treated as a failure
  (a failure makes the surrounding Python function raise, modelled by
  `Except.error ()`).
* Python's `list(set(...))` has unspecified iteration order; it is modelled
  as first-occurrence deduplication.
* `list.sort(key=..., reverse=True)` is a stable descending sort, modelled
  by the stable insertion sort `sortDescB`.
-/

namespace RDB

variable {α β : Type _}

/-- Decidable equality for `Except`, used to evaluate concrete matcher runs. -/
instance {ε α : Type} [DecidableEq ε] [DecidableEq α] : DecidableEq (Except ε α) :=
  fun x y =>
    match x, y with
    | .error a, .error b =>
      decidable_of_iff (a = b) ⟨fun h => h ▸ rfl, fun h => Except.error.inj h⟩
    | .error _, .ok _ => isFalse (fun h => Except.noConfusion h)
    | .ok _, .error _ => isFalse (fun h => Except.noConfusion h)
    | .ok a, .ok b =>
      decidable_of_iff (a = b) ⟨fun h => h ▸ rfl, fun h => Except.ok.inj h⟩

/-- Python `str.lower()` restricted to ASCII. -/
def pyLower (s : String) : String := String.mk (s.data.map Char.toLower)

/-- Is `pat` a prefix of `l`? -/
def isPref : List Char → List Char → Bool
  | [], _ => true
  | p :: ps, l =>
    match l with
    | [] => false
    | c :: cs => if p == c then isPref ps cs else false

/-- Python's substring containment `pat in l` (an empty pattern matches
everything, as in Python). -/
def containsSub (pat : List Char) : List Char → Bool
  | [] => pat.isEmpty
  | c :: rest => isPref pat (c :: rest) || containsSub pat rest

/-- `pat in s` on strings (Python `in`). -/
def substrB (pat s : String) : Bool := containsSub pat.data s.data

/-- Fuelled non-overlapping substring count. -/
def countOccFuel : Nat → List Char → List Char → Nat
  | 0, _, _ => 0
  | _ + 1, _, [] => 0
  | fuel + 1, pat, c :: rest =>
    if !pat.isEmpty && isPref pat (c :: rest) then
      1 + countOccFuel fuel pat (List.drop (pat.length - 1) rest)
    else countOccFuel fuel pat rest

/-- Python `hay.count(pat)` for a non-empty `pat` (non-overlapping count);
the fuel `hay.length` suffices because every step consumes a character. -/
def countOcc (pat hay : List Char) : Nat := countOccFuel hay.length pat hay

/-- Maximal runs of characters satisfying `p` (the accumulator holds the
current run reversed). -/
def runsByAux (p : Char → Bool) (cur : List Char) : List Char → List (List Char)
  | [] => if cur.isEmpty then [] else [cur.reverse]
  | c :: rest =>
    if p c then runsByAux p (c :: cur) rest
    else if cur.isEmpty then runsByAux p [] rest
    else cur.reverse :: runsByAux p [] rest

/-- Maximal runs of characters satisfying `p`. -/
def runsBy (p : Char → Bool) (l : List Char) : List (List Char) := runsByAux p [] l

/-- Python regex `\w` (ASCII): alphanumeric or underscore. -/
def isWordChar (c : Char) : Bool := c.isAlphanum || c == '_'

/-- The tokens produced by `re.findall(r'\b[a-zA-Z]{2,}\b', text)`: the
maximal `\w`-runs of `text` that consist solely of letters and have length at
least 2.  (A letter run adjacent to a digit or underscore has no word
boundary there, so the regex rejects it; this is why runs of word characters,
not runs of letters, are taken first.) -/
def freqTokens (text : String) : List String :=
  (runsBy isWordChar text.data).filterMap
    (fun r => if 2 ≤ r.length && r.all Char.isAlpha then some (String.mk r) else none)

/-- The stop-word set of the frequency extractor (`app.py` line 1736,
`work_orders_api_extension.py` line 898). -/
def stopWords : List String :=
  ["the", "a", "an", "and", "or", "but", "in", "on", "at", "to", "for", "of", "with",
   "by", "is", "are", "was", "were", "be", "been", "have", "has", "had", "will", "would",
   "should", "could", "may", "might", "can", "this", "that", "these", "those", "i", "you",
   "he", "she", "it", "we", "they", "our", "your", "their", "his", "her", "its"]

/-- First-occurrence deduplication (model of Python `list(set(...))`, whose
iteration order is unspecified). -/
def pyDedupAux (seen : List String) : List String → List String
  | [] => []
  | w :: ws =>
    if seen.contains w then pyDedupAux seen ws
    else w :: pyDedupAux (w :: seen) ws

/-- First-occurrence deduplication. -/
def pyDedup (l : List String) : List String := pyDedupAux [] l

/-- Stable insertion of `x` into `l` for a descending sort: `x` is placed
before the first element `h` with `ltB x h = false`, so an element inserted
later never moves ahead of an equal-keyed earlier one. -/
def insDescB (ltB : α → α → Bool) (x : α) : List α → List α
  | [] => [x]
  | h :: t => if ltB x h then h :: insDescB ltB x t else x :: h :: t

/-- Stable descending insertion sort (model of Python
`list.sort(key=..., reverse=True)`, which is a stable sort). -/
def sortDescB (ltB : α → α → Bool) : List α → List α
  | [] => []
  | x :: xs => insDescB ltB x (sortDescB ltB xs)

/-- The comparison Python's sort key performs on the frequency pairs
(ascending `<` on counts; the sort is descending, so `sortDescB`). -/
def freqLt (a b : String × Nat) : Bool := Nat.blt a.2 b.2

/-- The frequency keyword extractor: the `extract_keywords` of `app.py`
line 1731 and of `work_orders_api_extension.py` line 893.  (In `app.py` the
name `extract_keywords` is bound twice at module top level, at lines 678 and
1731; the later binding is the one in effect when any request handler runs,
so this is the extractor every caller in `app.py` actually uses.)  Tokenize
`text.lower()` with `\b[a-zA-Z]{2,}\b`, drop stop words, deduplicate, sort
stably by non-overlapping occurrence count in the lowered text (descending),
and keep the first 50.  `freqKeywordsOf` is the deduplicated stop-word-free
token list (the source's `keywords` variable). -/
def freqKeywordsOf (text : String) : List String :=
  pyDedup ((freqTokens (pyLower text)).filter (fun w => !stopWords.contains w))

/-- The `keyword_freq` pair list of the frequency extractor: each surviving
keyword with its (non-overlapping) occurrence count in the lowered text. -/
def freqPairsOf (text : String) : List (String × Nat) :=
  (freqKeywordsOf text).map (fun w => (w, countOcc w.data (pyLower text).data))

/-- The body of the frequency extractor, staged as in the source: tokenize
and stop-word-filter (`freqKeywordsOf`), pair with counts (`freqPairsOf`),
stable-sort descending by count, truncate to 50, and project the words. -/
def extract_keywords_freq (text : String) : List String :=
  ((sortDescB freqLt (freqPairsOf text)).take 50).map (fun p => p.1)

/-- The curated IT-support vocabulary of the domain keyword extractor
(`app.py` lines 680-689). -/
def techVocab : List String :=
  ["windows", "linux", "macos", "active directory", "servicenow",
   "office365", "microsoft 365", "azure", "aws", "vmware", "citrix",
   "desktop support", "help desk", "technical support", "troubleshooting",
   "hardware", "software", "network", "networking", "vpn", "security",
   "server", "cloud", "deployment", "migration", "imaging", "sccm",
   "intune", "jamf", "bitlocker", "powershell", "scripting", "automation",
   "itil", "incident management", "asset management", "documentation",
   "customer service", "communication", "problem solving"]

/-- The tokens of `re.findall(r'\b[A-Z][A-Za-z0-9]+\b', text)`: maximal
`\w`-runs that are all alphanumeric (no underscore), start with an uppercase
letter, and have length at least 2. -/
def capTokens (text : String) : List String :=
  (runsBy isWordChar text.data).filterMap
    (fun r =>
      if 2 ≤ r.length && r.all Char.isAlphanum && (r.head?.elim false Char.isUpper) then
        some (String.mk r)
      else none)

/-- The domain keyword extractor: the `extract_keywords` of `app.py`
line 678 (shadowed at runtime by the later definition at line 1731, so no
caller actually reaches it).  Curated-vocabulary scan of the lowercased text,
then up to 10 capitalized tokens of the original-case text appended when
longer than 2 characters and not already present (case-insensitively, against
the growing list). -/
def extract_keywords_domain (text : String) : List String :=
  let textLower := pyLower text
  let found := techVocab.filter (fun k => substrB k textLower)
  let cands := (capTokens text).take 10
  cands.foldl
    (fun acc tech =>
      if 2 < tech.length && !acc.contains (pyLower tech) then acc ++ [tech] else acc)
    found

/-- A technology/skill field of a stored item: SQL NULL (Python `None`), a
raw string (normally JSON), or an already-decoded Python list. -/
inductive TagField where
  | pyNone : TagField
  | str : String → TagField
  | list : List String → TagField
deriving DecidableEq, Repr

/-- Python truthiness of a `TagField` value. -/
def TagField.truthy : TagField → Bool
  | .pyNone => false
  | .str s => !s.isEmpty
  | .list l => !l.isEmpty

/-- A single-quote character, for Python `repr` of lists. -/
def sq : String := "\x27"

/-- Python `str()` of a list of strings (as interpolated by an f-string):
`["a","b"]` renders as `[` `'a', 'b'` `]`.  Quote-escaping inside the
strings is not modelled (no input here contains quotes). -/
def pyReprList (l : List String) : String :=
  "[" ++ String.intercalate ", " (l.map (fun s => sq ++ s ++ sq)) ++ "]"

/-- How a `TagField` renders inside an f-string. -/
def TagField.fstr : TagField → String
  | .pyNone => "None"
  | .str s => s
  | .list l => pyReprList l

/-- JSON whitespace (space, tab, line feed, carriage return), by code. -/
def isJsonWs (c : Char) : Bool :=
  let n := c.toNat
  n == 32 || n == 9 || n == 10 || n == 13

/-- JSON whitespace skip. -/
def skipWs (l : List Char) : List Char := l.dropWhile isJsonWs

/-- Hex digit value, by character code (0-9, a-f, A-F). -/
def hexDigitVal (c : Char) : Option Nat :=
  let n := c.toNat
  if 48 ≤ n ∧ n ≤ 57 then some (n - 48)
  else if 97 ≤ n ∧ n ≤ 102 then some (n - 87)
  else if 65 ≤ n ∧ n ≤ 70 then some (n - 55)
  else none

/-- Four hex digits (after a `\u` escape), read as a code point, with the
unread remainder.  Surrogate pairs are not modelled. -/
def hexQuad : List Char → Option (Nat × List Char)
  | d1 :: d2 :: d3 :: d4 :: rest =>
    (hexDigitVal d1).bind fun a =>
      (hexDigitVal d2).bind fun b =>
        (hexDigitVal d3).bind fun c =>
          (hexDigitVal d4).map fun d => (a * 4096 + b * 256 + c * 16 + d, rest)
  | _ => none

/-- The single-character JSON escapes (the character after the backslash). -/
def escMap (e : Char) : Option Char :=
  if e == 'n' then some (Char.ofNat 10)
  else if e == 't' then some (Char.ofNat 9)
  else if e == 'r' then some (Char.ofNat 13)
  else if e == 'b' then some (Char.ofNat 8)
  else if e == 'f' then some (Char.ofNat 12)
  else if e == '"' || e == '\\' || e == '/' then some e
  else none

/-- Parse the body of a JSON string (after the opening quote), returning the
string and the rest of the input.  Surrogate pairs are not modelled. -/
def jsonStrAux : Nat → List Char → List Char → Option (String × List Char)
  | 0, _, _ => none
  | fuel + 1, acc, l =>
    match l with
    | [] => none
    | c :: rest =>
      if c == '"' then some (String.mk acc.reverse, rest)
      else if c == '\\' then
        match rest with
        | 'u' :: r2 =>
          (hexQuad r2).bind fun p => jsonStrAux fuel (Char.ofNat p.1 :: acc) p.2
        | e :: r2 => (escMap e).bind fun d => jsonStrAux fuel (d :: acc) r2
        | [] => none
      else jsonStrAux fuel (c :: acc) rest

/-- Parse the tail of a JSON array of strings: positioned before `,` or `]`,
with the already-parsed elements in `acc` (reversed). -/
def jsonArrAux : Nat → List String → List Char → Option (List String × List Char)
  | 0, _, _ => none
  | fuel + 1, acc, l =>
    match skipWs l with
    | ']' :: rest => some (acc.reverse, rest)
    | ',' :: rest =>
      match skipWs rest with
      | '"' :: r2 =>
        match jsonStrAux r2.length [] r2 with
        | some (s, r3) => jsonArrAux fuel (s :: acc) r3
        | none => none
      | _ => none
    | _ => none

/-- Model of Python `json.loads` restricted to JSON arrays of strings; any
other document (including valid JSON of another shape, which the source
would subsequently crash on when calling `.lower()` on a non-string) is a
failure. -/
def jsonLoadsList (s : String) : Option (List String) :=
  match skipWs s.data with
  | '[' :: rest =>
    (match skipWs rest with
     | ']' :: rest2 => some ([], rest2)
     | '"' :: r2 =>
       match jsonStrAux r2.length [] r2 with
       | some (first, r3) =>
         match jsonArrAux r3.length [first] r3 with
         | some (items, r4) => some (items, r4)
         | none => none
       | none => none
     | _ => none).bind
      (fun p => if (skipWs p.2).isEmpty then some p.1 else none)
  | _ => none

/-- The decode step of the bonus-weighting branch: `json.loads(field)` when
the field is a string, the field itself when it is already a list
(`app.py` lines 1647 and 1654).  A `json.loads` failure raises, modelled by
`Except.error ()`.  (`pyNone` is never reached here because the branch is
guarded by truthiness.) -/
def parseTags : TagField → Except Unit (List String)
  | .pyNone => .ok []
  | .str raw =>
    match jsonLoadsList raw with
    | some l => .ok l
    | none => .error ()
  | .list l => .ok l

/-- The tag list a field effectively contributes to the bonus: empty when the
field is falsy (the `if item.get(...)` guard), otherwise its decoded list. -/
def effTags (f : TagField) : Except Unit (List String) :=
  if f.truthy then parseTags f else .ok []

/-- A stored candidate item.  `title`/`content`/`keywords` are the component
columns, `description` and the two tag fields the work-item columns; absent
values are the empty string. -/
structure Item where
  title : String
  content : String
  keywords : String
  description : String
  technologies_used : TagField
  skills_demonstrated : TagField
deriving DecidableEq, Repr

/-- The searchable text of `match_items_to_job` (`app.py` lines 1630-1634):
components concatenate title, content and keywords; any other item-type
string concatenates title, description and the raw (f-string rendered)
technology and skill fields; the whole string is lowercased. -/
def searchableText (kind : String) (it : Item) : String :=
  if kind == "component" then
    pyLower (it.title ++ " " ++ it.content ++ " " ++ it.keywords)
  else
    pyLower (it.title ++ " " ++ it.description ++ " " ++ it.technologies_used.fstr
      ++ " " ++ it.skills_demonstrated.fstr)

/-- The keywords of `K` occurring (lowercased, as substrings) in the
searchable text, in the order of `K`. -/
def kwMatched (K : List String) (stext : String) : List String :=
  K.filter (fun k => substrB (pyLower k) stext)

/-- How many tags of the list occur, lowercased, as substrings of the
(lowercased) job text; one count per list entry, duplicates included. -/
def lowerHits (jobLower : String) (tags : List String) : Nat :=
  tags.countP (fun t => substrB (pyLower t) jobLower)

/-- One bonus field of `match_items_to_job`: nothing when falsy, otherwise
`points2/2` score points per matching decoded tag (`points2` is the doubled
weight: 4 for technologies, 3 for skills). -/
def fieldBonus2 (jobLower : String) (f : TagField) (points2 : Nat) : Except Unit Nat :=
  if f.truthy then (parseTags f).map (fun tags => points2 * lowerHits jobLower tags)
  else .ok 0

/-- The doubled score and matched-keyword list of one item in
`match_items_to_job` (`app.py` lines 1625-1657): one point per keyword of `K`
found in the searchable text, plus, for `item_type == 'work_item'` only, 2
per matching technology tag and 1.5 per matching skill tag (checked
lowercased against the lowercased job description). -/
def scoreItem2 (job : String) (K : List String) (kind : String) (it : Item) :
    Except Unit (Nat × List String) :=
  let matched := kwMatched K (searchableText kind it)
  let jobLower := pyLower job
  if kind == "work_item" then
    match fieldBonus2 jobLower it.technologies_used 4 with
    | .error e => .error e
    | .ok b1 =>
      match fieldBonus2 jobLower it.skills_demonstrated 3 with
      | .error e => .error e
      | .ok b2 => .ok (2 * matched.length + b1 + b2, matched)
  else .ok (2 * matched.length, matched)

/-- `min(100, int((score / max(total_keywords, 1)) * 100))` in doubled-score
form: `score2 * 100 / (2 * max tk 1)` is the floor of `score * 100 /
max(tk,1)`, which equals Python's `int` truncation on these non-negative
values. -/
def pctOf (tk : Nat) (score2 : Nat) : Nat := min 100 (score2 * 100 / (2 * max tk 1))

/-- A scored match of `match_items_to_job`; `score2` is twice the Python
score (the increments are 1, 2 and 1.5, so doubling keeps everything in ℕ). -/
structure MatchResult where
  item : Item
  score2 : Nat
  match_percentage : Nat
  matched_keywords : List String
  item_type : String
deriving DecidableEq, Repr

/-- Score comparison for `match_items_to_job` results (the sort key is the
score; doubling preserves the order). -/
def mrLt (a b : MatchResult) : Bool := Nat.blt a.score2 b.score2

/-- The scoring loop of `match_items_to_job` (`app.py` lines 1624-1667),
before the final sort: each item is scored in order, items with zero score
are dropped, and a `json.loads` failure anywhere aborts the whole call. -/
def buildMatchesAux (job : String) (K : List String) (kind : String) :
    List Item → Except Unit (List MatchResult)
  | [] => .ok []
  | it :: rest =>
    match scoreItem2 job K kind it with
    | .error e => .error e
    | .ok (s2, matched) =>
      match buildMatchesAux job K kind rest with
      | .error e => .error e
      | .ok tail =>
        .ok (if 0 < s2 then ⟨it, s2, pctOf K.length s2, matched, kind⟩ :: tail else tail)

/-- The pre-sort match list of `match_items_to_job`. -/
def buildMatches (job : String) (items : List Item) (kind : String) :
    Except Unit (List MatchResult) :=
  buildMatchesAux job (extract_keywords_freq job) kind items

/-- `match_items_to_job(job_description, items, item_type)` of `app.py`
line 1620 and `work_orders_api_extension.py` line 782 (the two copies are
identical): score every item against the extracted keywords, drop zero
scores, and sort stably by descending score. -/
def match_items_to_job (job : String) (items : List Item) (kind : String) :
    Except Unit (List MatchResult) :=
  (buildMatches job items kind).map (sortDescB mrLt)

/-- A scored match of `keyword_match_components` (integer score, no
matched-keyword list in the source dict beyond score and percentage). -/
structure CompMatchK where
  component : Item
  score : Nat
  match_percentage : Nat
deriving DecidableEq, Repr

/-- The pre-sort list of `keyword_match_components` (`app.py` lines 654-672):
one point per extracted keyword occurring in the lowercased concatenation of
title, content and keywords; zero scores dropped; percentage
`min(100, int((score / len(keywords)) * 100))` with no `max(..., 1)` guard
(Lean's `/ 0 = 0` stands in for the division that Python would fault on;
it is proved unreachable). -/
def kmcPre (job : String) (comps : List Item) : List CompMatchK :=
  let K := extract_keywords_freq job
  comps.filterMap (fun c =>
    let matched := kwMatched K (pyLower (c.title ++ " " ++ c.content ++ " " ++ c.keywords))
    if 0 < matched.length then
      some ⟨c, matched.length, min 100 (matched.length * 100 / K.length)⟩
    else none)

/-- Score comparison for `keyword_match_components` results. -/
def kmLt (a b : CompMatchK) : Bool := Nat.blt a.score b.score

/-- `keyword_match_components(job_description, components)` of `app.py`
line 654; like every caller in `app.py` it resolves `extract_keywords` to the
frequency extractor (the later binding of that name). -/
def keyword_match_components (job : String) (comps : List Item) : List CompMatchK :=
  sortDescB kmLt (kmcPre job comps)

/-- A scored match of `semantic_match_components` (float score). -/
structure CompMatchS where
  component : Item
  score : ℚ
  match_percentage : ℤ
deriving DecidableEq, Repr

/-- Python `int(q * 100)` on an exact rational: truncating division of
`q.num * 100` by `q.den`. -/
def pyInt100 (q : ℚ) : ℤ := Int.tdiv (q.num * 100) (q.den : ℤ)

/-- The pre-sort list of `semantic_match_components` (`app.py` lines
640-647): the embedding model's cosine similarities are supplied as `sims`
(one per component, zipped pairwise); candidates with similarity strictly
above 0.3 are kept with `score = similarity` and
`match_percentage = int(score * 100)`. -/
def semanticPre (comps : List Item) (sims : List ℚ) : List CompMatchS :=
  (comps.zip sims).filterMap
    (fun p => if mkRat 3 10 < p.2 then some ⟨p.1, p.2, pyInt100 p.2⟩ else none)

/-- Score comparison for `semantic_match_components` results (`Rat.blt` is
definitionally `<` on `ℚ`). -/
def smLt (a b : CompMatchS) : Bool := Rat.blt a.score b.score

/-- `semantic_match_components(job_description, components)` of `app.py`
line 627, with the model's similarity outputs passed explicitly: threshold
filter then stable descending sort by score. -/
def semantic_match_components (comps : List Item) (sims : List ℚ) : List CompMatchS :=
  sortDescB smLt (semanticPre comps sims)

/-- The matches payload of the `/api/job-matcher` response: semantic-mode or
keyword-mode results depending on model availability. -/
inductive MatchesPayload where
  | semantic : List CompMatchS → MatchesPayload
  | keyword : List CompMatchK → MatchesPayload
deriving DecidableEq, Repr

/-- The `/api/job-matcher` response body (`app.py` lines 616-620);
`matchList` models the response key `matches` (that word is reserved
syntax in Lean). -/
structure JobMatchResponse where
  keywords : List String
  matchList : MatchesPayload
  total_matches : Nat
deriving DecidableEq, Repr

/-- The `/api/job-matcher` endpoint `match_job_description` (`app.py`
line 583) on a non-empty job description: semantic matching when the
embedding model loaded (its similarities are then `some sims`), otherwise
keyword matching; the response's `keywords` field is
`extract_keywords(job_description)`, which at run time is the frequency
extractor (the second top-level binding of `extract_keywords` in `app.py`
shadows the domain-vocabulary one at line 678). -/
def match_job_description (semanticSims : Option (List ℚ)) (job : String)
    (comps : List Item) : JobMatchResponse :=
  match semanticSims with
  | some sims =>
    let ms := semantic_match_components comps sims
    ⟨extract_keywords_freq job, .semantic (ms.take 20), ms.length⟩
  | none =>
    let ms := keyword_match_components job comps
    ⟨extract_keywords_freq job, .keyword (ms.take 20), ms.length⟩

/-- A scored match of the demo matcher (`demo_project_matching.py`); the
copied display fields (title, client, category) are not modelled. -/
structure DemoMatch where
  score : Nat
  match_percentage : Nat
  matched_keywords : List String
deriving DecidableEq, Repr

/-- How a tag field renders into the demo matcher's searchable text
(`demo_project_matching.py` lines 343-356): a string starting with `[` is
tentatively JSON-decoded and space-joined, with a decode failure silently
ignored (`except: pass`), keeping the raw string. -/
def demoFieldText : TagField → String
  | .pyNone => "None"
  | .list l => pyReprList l
  | .str raw =>
    if isPref "[".data raw.data then
      (jsonLoadsList raw).elim raw (fun l => String.intercalate " " l)
    else raw

/-- Score comparison for demo-matcher results. -/
def dmLt (a b : DemoMatch) : Bool := Nat.blt a.score b.score

/-- `match_items_to_keywords(items, keywords, item_type)` of
`demo_project_matching.py` line 330: keyword-count scoring only (no bonus
step), zero scores dropped, stable descending sort; malformed tag fields are
caught and never abort the call. -/
def match_items_to_keywords (items : List Item) (keywords : List String)
    (kind : String) : List DemoMatch :=
  let pre := items.filterMap (fun it =>
    let stext :=
      if kind == "component" then pyLower (it.title ++ " " ++ it.content ++ " " ++ it.keywords)
      else
        pyLower (it.title ++ " " ++ it.description ++ " " ++ demoFieldText it.technologies_used
          ++ " " ++ demoFieldText it.skills_demonstrated)
    let matched := kwMatched keywords stext
    if 0 < matched.length then
      some ⟨matched.length, min 100 (matched.length * 100 / keywords.length), matched⟩
    else none)
  sortDescB dmLt pre

/-- Modelled from the claim's words (C1): a bonus of +2 per distinct
technology tag and +1.5 per distinct skill tag that occurs, as written, as a
substring of the original-case job description; in doubled-score form. -/
def specBonusDistinctOriginalCase2 (job : String) (techs skills : List String) : Nat :=
  4 * ((pyDedup techs).countP (fun t => substrB t job))
    + 3 * ((pyDedup skills).countP (fun t => substrB t job))

/-- Modelled from the claim's words (C7): tokenization into maximal runs of
2+ alphabetic characters (with no word-boundary restriction against adjacent
digits or underscores). -/
def specAlphaTokens (text : String) : List String :=
  (runsBy Char.isAlpha text.data).filterMap
    (fun r => if 2 ≤ r.length then some (String.mk r) else none)

/-- A well-behaved tag field (used to state the amended C6): it decodes
successfully and holds no empty-string tag (an empty tag is a substring of
every job description, the empty one included). -/
def tagsOk (f : TagField) : Bool :=
  match effTags f with
  | .ok l => !l.contains ""
  | .error _ => false

/-! ### Generic lemmas about the stable descending sort -/

/-- Inserting permutes: `insDescB ltB x l` is `x :: l` up to order. -/
theorem perm_insDescB (ltB : α → α → Bool) (x : α) (l : List α) :
    (insDescB ltB x l).Perm (x :: l) := by
  induction l with
  | nil => exact List.Perm.refl _
  | cons h t ih =>
    cases hcb : ltB x h with
    | true =>
      simp only [insDescB, hcb, if_true]
      exact (ih.cons h).trans (List.Perm.swap x h t)
    | false => simp [insDescB, hcb]

/-- Sorting permutes. -/
theorem perm_sortDescB (ltB : α → α → Bool) (l : List α) :
    (sortDescB ltB l).Perm l := by
  induction l with
  | nil => exact List.Perm.refl _
  | cons x xs ih => exact (perm_insDescB ltB x _).trans (ih.cons x)

/-- Membership is preserved by the sort. -/
theorem mem_sortDescB {ltB : α → α → Bool} {l : List α} {a : α} :
    a ∈ sortDescB ltB l ↔ a ∈ l :=
  (perm_sortDescB ltB l).mem_iff

/-- Inserting into a descending-sorted list keeps it sorted, given asymmetry
and negative transitivity of the comparison. -/
theorem pairwise_insDescB (ltB : α → α → Bool)
    (hasym : ∀ a b, ltB a b = true → ltB b a = false)
    (hneg : ∀ a b c, ltB a b = false → ltB b c = false → ltB a c = false)
    (x : α) (l : List α) (hl : l.Pairwise (fun p q => ltB p q = false)) :
    (insDescB ltB x l).Pairwise (fun p q => ltB p q = false) := by
  induction l with
  | nil => simp [insDescB]
  | cons h t ih =>
    rcases List.pairwise_cons.mp hl with ⟨hh, ht⟩
    cases hcb : ltB x h with
    | false =>
      simp only [insDescB, hcb, Bool.false_eq_true, if_false]
      refine List.pairwise_cons.mpr ⟨?_, hl⟩
      intro b hb
      rcases List.mem_cons.mp hb with rfl | hbt
      · exact hcb
      · exact hneg x h b hcb (hh b hbt)
    | true =>
      simp only [insDescB, hcb, if_true]
      refine List.pairwise_cons.mpr ⟨?_, ih ht⟩
      intro b hb
      rcases List.mem_cons.mp ((perm_insDescB ltB x t).mem_iff.mp hb) with hbx | hbt
      · rw [hbx]; exact hasym x h hcb
      · exact hh b hbt

/-- The sort output is descending-sorted (pairwise, the later element is not
greater). -/
theorem pairwise_sortDescB (ltB : α → α → Bool)
    (hasym : ∀ a b, ltB a b = true → ltB b a = false)
    (hneg : ∀ a b c, ltB a b = false → ltB b c = false → ltB a c = false)
    (l : List α) :
    (sortDescB ltB l).Pairwise (fun p q => ltB p q = false) := by
  induction l with
  | nil => simp [sortDescB]
  | cons x xs ih => exact pairwise_insDescB ltB hasym hneg x _ ih

/-- Filtering by a predicate that is false above `x` commutes with inserting
`x` (the inserted element lands in front of its equals). -/
theorem filter_insDescB_pos (ltB : α → α → Bool) (p : α → Bool) (x : α) (l : List α)
    (hx : p x = true) (hlt : ∀ b, ltB x b = true → p b = false) :
    (insDescB ltB x l).filter p = x :: l.filter p := by
  induction l with
  | nil => simp [insDescB, hx]
  | cons h t ih =>
    cases hcb : ltB x h with
    | false => simp [insDescB, hcb, hx]
    | true =>
      have hph : p h = false := hlt h hcb
      simp [insDescB, hcb, List.filter_cons, hph, ih]

/-- Filtering ignores an inserted element the predicate rejects. -/
theorem filter_insDescB_neg (ltB : α → α → Bool) (p : α → Bool) (x : α) (l : List α)
    (hx : p x = false) :
    (insDescB ltB x l).filter p = l.filter p := by
  induction l with
  | nil => simp [insDescB, hx]
  | cons h t ih =>
    cases hcb : ltB x h with
    | false => simp [insDescB, hcb, List.filter_cons, hx]
    | true => cases hph : p h <;> simp [insDescB, hcb, List.filter_cons, hph, ih]

/-- Stability of the sort: the elements on one key level keep their input
order.  `p` selects a key level: whenever `p` accepts `a`, it rejects any `b`
strictly above `a`. -/
theorem filter_sortDescB (ltB : α → α → Bool) (p : α → Bool)
    (hkey : ∀ a b, p a = true → ltB a b = true → p b = false) (l : List α) :
    (sortDescB ltB l).filter p = l.filter p := by
  induction l with
  | nil => rfl
  | cons x xs ih =>
    cases hx : p x with
    | true =>
      simp only [sortDescB]
      rw [filter_insDescB_pos ltB p x _ hx (fun b hb => hkey x b hx hb), ih]
      simp [List.filter_cons, hx]
    | false =>
      simp only [sortDescB]
      rw [filter_insDescB_neg ltB p x _ hx, ih]
      simp [List.filter_cons, hx]

/-- The length of the sort output. -/
theorem length_sortDescB (ltB : α → α → Bool) (l : List α) :
    (sortDescB ltB l).length = l.length :=
  (perm_sortDescB ltB l).length_eq

/-! ### Generic lemmas about filterMap over a guard, and deduplication -/

/-- A `filterMap` whose function is a guarded `some` has as many outputs as
the guard accepts. -/
theorem length_filterMap_ite {g : α → β} {c : α → Prop} [DecidablePred c] (l : List α) :
    (l.filterMap (fun a => if c a then some (g a) else none)).length
      = l.countP (fun a => decide (c a)) := by
  induction l with
  | nil => rfl
  | cons x xs ih =>
    by_cases hx : c x <;>
      simp [List.filterMap_cons, hx, ih, List.countP_cons]

/-- Elements of the deduplication come from the input. -/
theorem mem_of_mem_pyDedupAux {a : String} :
    ∀ (l seen : List String), a ∈ pyDedupAux seen l → a ∈ l := by
  intro l
  induction l with
  | nil => intro seen h; simp [pyDedupAux] at h
  | cons w ws ih =>
    intro seen h
    by_cases hc : w ∈ seen
    · rw [pyDedupAux, if_pos (by simpa using hc)] at h
      exact List.mem_cons_of_mem w (ih seen h)
    · rw [pyDedupAux, if_neg (by simpa using hc)] at h
      rcases List.mem_cons.mp h with rfl | h2
      · exact List.mem_cons_self a ws
      · exact List.mem_cons_of_mem w (ih (w :: seen) h2)

/-- Unseen input elements survive the deduplication. -/
theorem mem_pyDedupAux_of_mem {a : String} :
    ∀ (l seen : List String), a ∈ l → a ∉ seen → a ∈ pyDedupAux seen l := by
  intro l
  induction l with
  | nil => intro seen h; simp at h
  | cons w ws ih =>
    intro seen hmem hseen
    by_cases haw : a = w
    · subst haw
      rw [pyDedupAux, if_neg (by simpa using hseen)]
      exact List.mem_cons_self a _
    · rcases List.mem_cons.mp hmem with rfl | hws
      · exact absurd rfl haw
      by_cases hc : w ∈ seen
      · rw [pyDedupAux, if_pos (by simpa using hc)]
        exact ih seen hws hseen
      · rw [pyDedupAux, if_neg (by simpa using hc)]
        refine List.mem_cons_of_mem w (ih (w :: seen) hws ?_)
        intro hmem2
        rcases List.mem_cons.mp hmem2 with rfl | h2
        · exact haw rfl
        · exact hseen h2

/-- The deduplication has no duplicates, and never emits a seen element. -/
theorem nodup_pyDedupAux :
    ∀ (l seen : List String), (pyDedupAux seen l).Nodup ∧
      ∀ a ∈ pyDedupAux seen l, a ∉ seen := by
  intro l
  induction l with
  | nil => intro seen; simp [pyDedupAux]
  | cons w ws ih =>
    intro seen
    by_cases hc : w ∈ seen
    · rw [pyDedupAux, if_pos (by simpa using hc)]
      exact ih seen
    · rw [pyDedupAux, if_neg (by simpa using hc)]
      obtain ⟨hnd, hseen⟩ := ih (w :: seen)
      refine ⟨List.nodup_cons.mpr ⟨?_, hnd⟩, ?_⟩
      · intro hw
        exact hseen w hw (List.mem_cons_self w seen)
      · intro a ha
        rcases List.mem_cons.mp ha with rfl | ha2
        · exact hc
        · exact fun hmem => hseen a ha2 (List.mem_cons_of_mem w hmem)

/-- `pyDedup` preserves membership. -/
theorem mem_pyDedup {a : String} {l : List String} : a ∈ pyDedup l ↔ a ∈ l :=
  ⟨mem_of_mem_pyDedupAux l [], fun h => mem_pyDedupAux_of_mem l [] h (by simp)⟩

/-- `pyDedup` outputs are duplicate-free. -/
theorem nodup_pyDedup (l : List String) : (pyDedup l).Nodup :=
  (nodup_pyDedupAux l []).1

/-! ### Lemmas about the matchers -/

/-- The bonus of one tag field, rephrased through `effTags`. -/
theorem fieldBonus2_eq (jl : String) (f : TagField) (w : Nat) :
    fieldBonus2 jl f w = (effTags f).map (fun tags => w * lowerHits jl tags) := by
  cases hf : f.truthy <;> simp [fieldBonus2, effTags, hf, Except.map, lowerHits]

/-- Characterization of a successful `scoreItem2` on the work-item path. -/
theorem scoreItem2_work_item {job : String} {K : List String} {it : Item}
    {s2 : Nat} {m : List String}
    (h : scoreItem2 job K "work_item" it = .ok (s2, m)) :
    m = kwMatched K (searchableText "work_item" it) ∧
    ∃ techs skills, effTags it.technologies_used = .ok techs ∧
      effTags it.skills_demonstrated = .ok skills ∧
      s2 = 2 * m.length + 4 * lowerHits (pyLower job) techs
        + 3 * lowerHits (pyLower job) skills := by
  simp only [scoreItem2, beq_self_eq_true, if_true, fieldBonus2_eq] at h
  cases ht : effTags it.technologies_used with
  | error e => rw [ht] at h; simp [Except.map] at h
  | ok techs =>
    rw [ht] at h
    cases hs : effTags it.skills_demonstrated with
    | error e => rw [hs] at h; simp [Except.map] at h
    | ok skills =>
      rw [hs] at h
      simp only [Except.map, Except.ok.injEq, Prod.mk.injEq] at h
      obtain ⟨h1, h2⟩ := h
      refine ⟨h2.symm, techs, skills, rfl, rfl, ?_⟩
      rw [← h2]
      omega

/-- Characterization of a successful `scoreItem2` off the work-item path. -/
theorem scoreItem2_other {job : String} {K : List String} {kind : String} {it : Item}
    {s2 : Nat} {m : List String} (hk : kind ≠ "work_item")
    (h : scoreItem2 job K kind it = .ok (s2, m)) :
    m = kwMatched K (searchableText kind it) ∧ s2 = 2 * m.length := by
  rw [scoreItem2, if_neg (by simpa using hk)] at h
  simp only [Except.ok.injEq, Prod.mk.injEq] at h
  refine ⟨h.2.symm, ?_⟩
  rw [← h.2]
  exact h.1.symm

/-- Everything a membership in the pre-sort list of `match_items_to_job`
guarantees. -/
theorem mem_buildMatchesAux {job : String} {K : List String} {kind : String} :
    ∀ {items : List Item} {pre : List MatchResult},
      buildMatchesAux job K kind items = .ok pre → ∀ r ∈ pre,
        0 < r.score2 ∧
        r.match_percentage = pctOf K.length r.score2 ∧
        r.item_type = kind ∧
        scoreItem2 job K kind r.item = .ok (r.score2, r.matched_keywords) := by
  intro items
  induction items with
  | nil =>
    intro pre h r hr
    rw [buildMatchesAux] at h
    injection h with h2
    rw [← h2] at hr
    simp at hr
  | cons it rest ih =>
    intro pre h r hr
    rw [buildMatchesAux] at h
    cases hsc : scoreItem2 job K kind it with
    | error e => simp only [hsc] at h; exact absurd h (by simp)
    | ok p =>
      simp only [hsc] at h
      cases hrec : buildMatchesAux job K kind rest with
      | error e => simp only [hrec] at h; exact absurd h (by simp)
      | ok tail =>
        simp only [hrec] at h
        obtain ⟨s2, m⟩ := p
        simp only at h
        by_cases h0 : 0 < s2
        · rw [if_pos h0] at h
          injection h with h2
          rw [← h2] at hr
          rcases List.mem_cons.mp hr with hr1 | hr2
          · rw [hr1]
            exact ⟨h0, rfl, rfl, hsc⟩
          · exact ih hrec r hr2
        · rw [if_neg h0] at h
          injection h with h2
          rw [← h2] at hr
          exact ih hrec r hr

/-- A successful `match_items_to_job` is the stable sort of its pre-sort
list. -/
theorem match_items_to_job_eq_sort {job : String} {items : List Item} {kind : String}
    {pre : List MatchResult} (h : buildMatches job items kind = .ok pre) :
    match_items_to_job job items kind = .ok (sortDescB mrLt pre) := by
  rw [match_items_to_job, h]
  rfl

/-- Everything a membership in a successful `match_items_to_job` result
guarantees. -/
theorem mem_match_items_to_job {job : String} {items : List Item} {kind : String}
    {ms : List MatchResult} {r : MatchResult}
    (h : match_items_to_job job items kind = .ok ms) (hr : r ∈ ms) :
    0 < r.score2 ∧
    r.match_percentage = pctOf (extract_keywords_freq job).length r.score2 ∧
    r.item_type = kind ∧
    scoreItem2 job (extract_keywords_freq job) kind r.item
      = .ok (r.score2, r.matched_keywords) := by
  rw [match_items_to_job] at h
  cases hb : buildMatches job items kind with
  | error e => rw [hb] at h; exact absurd h (by simp [Except.map])
  | ok pre =>
    rw [hb] at h
    simp only [Except.map, Except.ok.injEq] at h
    rw [← h] at hr
    exact mem_buildMatchesAux hb r (mem_sortDescB.mp hr)

/-- Everything a membership in the pre-sort list of
`keyword_match_components` guarantees. -/
theorem mem_kmcPre {job : String} {comps : List Item} {r : CompMatchK}
    (hr : r ∈ kmcPre job comps) :
    0 < r.score ∧ r.score ≤ (extract_keywords_freq job).length ∧
    r.match_percentage
      = min 100 (r.score * 100 / (extract_keywords_freq job).length) := by
  simp only [kmcPre] at hr
  rcases List.mem_filterMap.mp hr with ⟨c, _, hmap⟩
  by_cases h0 : 0 < (kwMatched (extract_keywords_freq job)
      (pyLower (c.title ++ " " ++ c.content ++ " " ++ c.keywords))).length
  · rw [if_pos h0] at hmap
    injection hmap with h2
    rw [← h2]
    exact ⟨h0, List.length_filter_le _ _, rfl⟩
  · rw [if_neg h0] at hmap
    exact absurd hmap (by simp)

/-- Membership in `keyword_match_components` results. -/
theorem mem_keyword_match_components {job : String} {comps : List Item} {r : CompMatchK}
    (hr : r ∈ keyword_match_components job comps) :
    0 < r.score ∧ r.score ≤ (extract_keywords_freq job).length ∧
    r.match_percentage
      = min 100 (r.score * 100 / (extract_keywords_freq job).length) :=
  mem_kmcPre (mem_sortDescB.mp hr)

/-- Everything a membership in the pre-sort list of
`semantic_match_components` guarantees. -/
theorem mem_semanticPre {comps : List Item} {sims : List ℚ} {r : CompMatchS}
    (hr : r ∈ semanticPre comps sims) :
    mkRat 3 10 < r.score ∧ r.match_percentage = pyInt100 r.score := by
  rw [semanticPre] at hr
  rcases List.mem_filterMap.mp hr with ⟨p, _, hmap⟩
  by_cases h0 : mkRat 3 10 < p.2
  · rw [if_pos h0] at hmap
    injection hmap with h2
    rw [← h2]
    exact ⟨h0, rfl⟩
  · rw [if_neg h0] at hmap
    exact absurd hmap (by simp)

/-- Membership in `semantic_match_components` results. -/
theorem mem_semantic_match_components {comps : List Item} {sims : List ℚ} {r : CompMatchS}
    (hr : r ∈ semantic_match_components comps sims) :
    mkRat 3 10 < r.score ∧ r.match_percentage = pyInt100 r.score :=
  mem_semanticPre (mem_sortDescB.mp hr)

/-! ### Comparator facts and frequency-extractor structure -/

/-- `freqLt` is asymmetric. -/
theorem freqLt_asym (a b : String × Nat) (h : freqLt a b = true) : freqLt b a = false := by
  simp only [freqLt, ← Bool.not_eq_true, Nat.blt_eq] at h ⊢
  omega

/-- `freqLt` is negatively transitive. -/
theorem freqLt_negtrans (a b c : String × Nat) (hab : freqLt a b = false)
    (hbc : freqLt b c = false) : freqLt a c = false := by
  simp only [freqLt, ← Bool.not_eq_true, Nat.blt_eq] at hab hbc ⊢
  omega

/-- `mrLt` is asymmetric. -/
theorem mrLt_asym (a b : MatchResult) (h : mrLt a b = true) : mrLt b a = false := by
  simp only [mrLt, ← Bool.not_eq_true, Nat.blt_eq] at h ⊢
  omega

/-- `mrLt` is negatively transitive. -/
theorem mrLt_negtrans (a b c : MatchResult) (hab : mrLt a b = false)
    (hbc : mrLt b c = false) : mrLt a c = false := by
  simp only [mrLt, ← Bool.not_eq_true, Nat.blt_eq] at hab hbc ⊢
  omega

/-- `kmLt` is asymmetric. -/
theorem kmLt_asym (a b : CompMatchK) (h : kmLt a b = true) : kmLt b a = false := by
  simp only [kmLt, ← Bool.not_eq_true, Nat.blt_eq] at h ⊢
  omega

/-- `kmLt` is negatively transitive. -/
theorem kmLt_negtrans (a b c : CompMatchK) (hab : kmLt a b = false)
    (hbc : kmLt b c = false) : kmLt a c = false := by
  simp only [kmLt, ← Bool.not_eq_true, Nat.blt_eq] at hab hbc ⊢
  omega

/-- Pairs drawn from the (sorted, truncated) frequency pair list carry their
word's count and a word from the deduplicated keyword list. -/
theorem mem_sorted_freq_pairs {text : String} {p : String × Nat}
    (hp : p ∈ (sortDescB freqLt (freqPairsOf text)).take 50) :
    p.1 ∈ freqKeywordsOf text ∧ p.2 = countOcc p.1.data (pyLower text).data := by
  have h1 : p ∈ sortDescB freqLt (freqPairsOf text) := (List.take_sublist _ _).subset hp
  have h2 : p ∈ freqPairsOf text := mem_sortDescB.mp h1
  rcases List.mem_map.mp h2 with ⟨w, hw, heq⟩
  rw [← heq]
  exact ⟨hw, rfl⟩

/-- The frequency extractor emits at most 50 keywords. -/
theorem freq_cap (text : String) : (extract_keywords_freq text).length ≤ 50 := by
  simp only [extract_keywords_freq, List.length_map, List.length_take]
  exact min_le_left _ _

/-- The frequency extractor emits no duplicates. -/
theorem freq_nodup (text : String) : (extract_keywords_freq text).Nodup := by
  have h1 : (freqKeywordsOf text).Nodup := nodup_pyDedup _
  have h2 : (freqPairsOf text).Nodup :=
    h1.map (fun a b h => congrArg Prod.fst h)
  have h3 : (sortDescB freqLt (freqPairsOf text)).Nodup :=
    ((perm_sortDescB _ _).nodup_iff).mpr h2
  have h4 : ((sortDescB freqLt (freqPairsOf text)).take 50).Nodup :=
    List.Nodup.sublist (List.take_sublist _ _) h3
  refine List.Nodup.map_on ?_ h4
  intro x hx y hy hxy
  have hx2 := (mem_sorted_freq_pairs hx).2
  have hy2 := (mem_sorted_freq_pairs hy).2
  have : x.2 = y.2 := by rw [hx2, hy2, hxy]
  calc x = (x.1, x.2) := rfl
    _ = (y.1, y.2) := by rw [hxy, this]
    _ = y := rfl

/-- Every emitted keyword is a token of the lowered text and not a stop
word. -/
theorem freq_provenance {text w} (hw : w ∈ extract_keywords_freq text) :
    w ∈ freqTokens (pyLower text) ∧ stopWords.contains w = false := by
  rcases List.mem_map.mp hw with ⟨p, hp, hpe⟩
  have h1 := (mem_sorted_freq_pairs hp).1
  rw [← hpe] at *
  have h2 := mem_pyDedup.mp h1
  have h3 := List.mem_filter.mp h2
  refine ⟨h3.1, ?_⟩
  have := h3.2
  simpa using this

/-- Emitted keywords are ordered by non-increasing occurrence count. -/
theorem freq_sorted (text : String) :
    (extract_keywords_freq text).Pairwise
      (fun a b => countOcc b.data (pyLower text).data
        ≤ countOcc a.data (pyLower text).data) := by
  have h1 := pairwise_sortDescB freqLt freqLt_asym freqLt_negtrans (freqPairsOf text)
  have h2 : ((sortDescB freqLt (freqPairsOf text)).take 50).Pairwise
      (fun p q => freqLt p q = false) :=
    List.Pairwise.sublist (List.take_sublist _ _) h1
  rw [extract_keywords_freq, List.pairwise_map]
  refine h2.imp_of_mem ?_
  intro a b ha hb hR
  have ha2 := (mem_sorted_freq_pairs ha).2
  have hb2 := (mem_sorted_freq_pairs hb).2
  rw [← ha2, ← hb2]
  simp only [freqLt, ← Bool.not_eq_true, Nat.blt_eq] at hR
  omega

/-- Below the cap, every surviving token is emitted. -/
theorem freq_complete {text : String} (hlen : (extract_keywords_freq text).length < 50) :
    ∀ w ∈ freqTokens (pyLower text), stopWords.contains w = false →
      w ∈ extract_keywords_freq text := by
  intro w hw hstop
  have hk : w ∈ freqKeywordsOf text :=
    mem_pyDedup.mpr (List.mem_filter.mpr ⟨hw, by simpa using hstop⟩)
  have hp : (w, countOcc w.data (pyLower text).data) ∈ freqPairsOf text :=
    List.mem_map_of_mem _ hk
  have hs : (w, countOcc w.data (pyLower text).data) ∈ sortDescB freqLt (freqPairsOf text) :=
    mem_sortDescB.mpr hp
  have hlt : (sortDescB freqLt (freqPairsOf text)).length ≤ 50 := by
    simp only [extract_keywords_freq, List.length_map, List.length_take] at hlen
    omega
  rw [extract_keywords_freq, List.take_of_length_le hlt]
  exact List.mem_map.mpr ⟨(w, countOcc w.data (pyLower text).data), hs, rfl⟩

/-! ### Lemmas for the empty-job analysis -/

/-- A non-empty pattern is not a substring of the empty string. -/
theorem substrB_lower_empty {t : String} (h : t ≠ "") : substrB (pyLower t) "" = false := by
  cases t with
  | mk data =>
    cases data with
    | nil => exact absurd rfl h
    | cons c cs => rfl

/-- A well-behaved tag field earns no bonus against the empty job
description. -/
theorem fieldBonus2_empty {f : TagField} (w : Nat) (h : tagsOk f = true) :
    fieldBonus2 (pyLower "") f w = .ok 0 := by
  rw [fieldBonus2_eq]
  cases he : effTags f with
  | error e => simp only [tagsOk, he] at h; exact absurd h Bool.false_ne_true
  | ok l =>
    simp only [tagsOk, he, Bool.not_eq_true'] at h
    have hnotmem : "" ∉ l := by simpa using h
    have hpl : pyLower "" = "" := rfl
    have hz : lowerHits (pyLower "") l = 0 := by
      rw [hpl, lowerHits, List.countP_eq_zero]
      intro t ht
      have hne : t ≠ "" := fun hte => hnotmem (hte ▸ ht)
      simp [substrB_lower_empty hne]
    simp [Except.map, hz]

/-- With no keywords and well-behaved tag fields, an item scores zero against
the empty job description. -/
theorem scoreItem2_empty {kind : String} {it : Item}
    (h1 : tagsOk it.technologies_used = true) (h2 : tagsOk it.skills_demonstrated = true) :
    scoreItem2 "" ([] : List String) kind it = .ok (0, []) := by
  by_cases hk : (kind == "work_item") = true
  · rw [scoreItem2]
    rw [if_pos hk, fieldBonus2_empty 4 h1, fieldBonus2_empty 3 h2]
    simp [kwMatched]
  · rw [scoreItem2, if_neg hk]
    simp [kwMatched]
/-- With no keywords and well-behaved tag fields there are no matches at
all against the empty job description. -/
theorem buildMatchesAux_empty {kind : String} :
    ∀ {items : List Item},
      (∀ it ∈ items, tagsOk it.technologies_used = true ∧ tagsOk it.skills_demonstrated = true) →
      buildMatchesAux "" ([] : List String) kind items = .ok [] := by
  intro items
  induction items with
  | nil => intro _; rfl
  | cons it rest ih =>
    intro h
    have h1 := h it (List.mem_cons_self it rest)
    have h2 := ih (fun x hx => h x (List.mem_cons_of_mem it hx))
    rw [buildMatchesAux]
    simp [scoreItem2_empty h1.1 h1.2, h2]

/-- The empty job description yields an empty match list on well-behaved
items. -/
theorem match_items_to_job_empty {items : List Item} {kind : String}
    (h : ∀ it ∈ items, tagsOk it.technologies_used = true ∧ tagsOk it.skills_demonstrated = true) :
    match_items_to_job "" items kind = .ok [] := by
  have hK : extract_keywords_freq "" = [] := rfl
  rw [match_items_to_job, buildMatches, hK, buildMatchesAux_empty h]
  rfl
/-! ### The claims -/

/-- C1, counterexample: the claim mandates a bonus of +2 per distinct
technology tag matched against the original-case job description.  On the
work item with technology list `["ServiceNow", "ServiceNow"]` and the job
description `"Use SERVICENOW please"`, one keyword matches (doubled score
contribution 2), the claim-mandated bonus is 0 (the tag `"ServiceNow"` is
not a substring of the original-case text, and deduplication leaves one
tag), yet the code returns doubled score 10 (= keyword 1 + 2+2 per list
entry, matched case-insensitively against the lowercased text). -/
theorem C1_counterexample :
    (match_items_to_job "Use SERVICENOW please"
        [⟨"zzz", "", "", "", .list ["ServiceNow", "ServiceNow"], .list []⟩]
        "work_item").map (List.map (fun r => r.score2)) = .ok [10] ∧
    (kwMatched (extract_keywords_freq "Use SERVICENOW please")
        (searchableText "work_item"
          ⟨"zzz", "", "", "", .list ["ServiceNow", "ServiceNow"], .list []⟩)).length = 1 ∧
    specBonusDistinctOriginalCase2 "Use SERVICENOW please"
        ["ServiceNow", "ServiceNow"] [] = 0 ∧
    (10 : Nat) ≠ 2 * 1 + 0 :=
  ⟨by decide, by decide, by decide, by decide⟩

/-- C1, amended: for work-order/project candidates the bonus is +2 per
technology LIST ENTRY (duplicates counted once per entry) and +1.5 per skill
entry whose LOWERCASED form is a substring of the LOWERCASED job description
(the comparison is case-insensitive, not against the original-case text);
component candidates receive no bonus.  Stated on doubled scores
(`score2 = 2·score`). -/
theorem C1_amended :
    (∀ job items ms, match_items_to_job job items "work_item" = .ok ms →
      ∀ r ∈ ms, ∃ techs skills,
        effTags r.item.technologies_used = .ok techs ∧
        effTags r.item.skills_demonstrated = .ok skills ∧
        r.score2 = 2 * r.matched_keywords.length
          + 4 * lowerHits (pyLower job) techs + 3 * lowerHits (pyLower job) skills) ∧
    (∀ job items ms, match_items_to_job job items "component" = .ok ms →
      ∀ r ∈ ms, r.score2 = 2 * r.matched_keywords.length) := by
  constructor
  · intro job items ms h r hr
    have h4 := (mem_match_items_to_job h hr).2.2.2
    rcases scoreItem2_work_item h4 with ⟨hm, techs, skills, ht, hs, he⟩
    exact ⟨techs, skills, ht, hs, he⟩
  · intro job items ms h r hr
    have h4 := (mem_match_items_to_job h hr).2.2.2
    exact (scoreItem2_other (by decide) h4).2

/-- C1, witness: the amended bonus formula evaluated on the counterexample
run. -/
theorem C1_amended_witness :
    ∃ techs skills,
      effTags (TagField.list ["ServiceNow", "ServiceNow"]) = .ok techs ∧
      effTags (TagField.list []) = .ok skills ∧
      (10 : Nat) = 2 * 1 + 4 * lowerHits (pyLower "Use SERVICENOW please") techs
        + 3 * lowerHits (pyLower "Use SERVICENOW please") skills := by
  have h := C1_amended.1 "Use SERVICENOW please"
      [⟨"zzz", "", "", "", .list ["ServiceNow", "ServiceNow"], .list []⟩]
      [⟨⟨"zzz", "", "", "", .list ["ServiceNow", "ServiceNow"], .list []⟩, 10, 100,
        ["servicenow"], "work_item"⟩] (by decide)
  exact h ⟨⟨"zzz", "", "", "", .list ["ServiceNow", "ServiceNow"], .list []⟩, 10, 100,
    ["servicenow"], "work_item"⟩ (by decide)

/-- C2, counterexample: with 3 extracted keywords and 2 matching (score 2,
doubled 4), the code stores `min(100, int(2/3·100)) = 66`, while the claim's
formula `min(100, round(2/3·100))` gives 67. -/
theorem C2_counterexample :
    (match_items_to_job "alpha bravo charlie"
        [⟨"alpha bravo", "", "", "", .pyNone, .pyNone⟩]
        "component").map (List.map (fun r => (r.score2, r.match_percentage)))
      = .ok [(4, 66)] ∧
    (extract_keywords_freq "alpha bravo charlie").length = 3 ∧
    min 100 (round ((2 : ℚ) * 100 / max (3 : ℚ) 1)) = 67 ∧
    (66 : Nat) ≠ 67 := by
  refine ⟨by decide, by decide, ?_, by decide⟩
  have h67 : round ((2 : ℚ) * 100 / max (3 : ℚ) 1) = 67 := by norm_num [round_eq]
  rw [h67]
  exact min_eq_right (by norm_num)

/-- C2, amended: every keyword-mode MatchResult's percentage is
`min(100, trunc(score / max(totalKeywords, 1) · 100))` — truncating `int()`
division (the floor on these non-negative values), not `round`.  Stated on
doubled scores for `match_items_to_job`; `keyword_match_components` divides
by `len(keywords)` with no `max` guard, which agrees with the guarded
formula because its results force at least one keyword. -/
theorem C2_amended :
    (∀ job items kind ms, match_items_to_job job items kind = .ok ms → ∀ r ∈ ms,
      r.match_percentage
        = min 100 (r.score2 * 100 / (2 * max (extract_keywords_freq job).length 1))) ∧
    (∀ job comps, ∀ r ∈ keyword_match_components job comps,
      r.match_percentage
        = min 100 (r.score * 100 / max (extract_keywords_freq job).length 1)) := by
  constructor
  · intro job items kind ms h r hr
    rw [(mem_match_items_to_job h hr).2.1]
    rfl
  · intro job comps r hr
    obtain ⟨h0, hle, hpct⟩ := mem_keyword_match_components hr
    have h1 : max (extract_keywords_freq job).length 1 = (extract_keywords_freq job).length :=
      Nat.max_eq_left (by omega)
    rw [hpct, h1]

/-- C2, witness: the amended percentage formula on the counterexample run. -/
theorem C2_amended_witness :
    (66 : Nat)
      = min 100 (4 * 100 / (2 * max (extract_keywords_freq "alpha bravo charlie").length 1)) := by
  have h := C2_amended.1 "alpha bravo charlie"
      [⟨"alpha bravo", "", "", "", .pyNone, .pyNone⟩] "component"
      [⟨⟨"alpha bravo", "", "", "", .pyNone, .pyNone⟩, 4, 66, ["alpha", "bravo"], "component"⟩]
      (by decide)
  exact h ⟨⟨"alpha bravo", "", "", "", .pyNone, .pyNone⟩, 4, 66, ["alpha", "bravo"], "component"⟩
    (by decide)

/-- C3, counterexample: the `/api/job-matcher` response's `keywords` field
contains the lowercase token `"handheld"` for the job description
`"Zebra handheld deployment"`, but the domain-vocabulary extractor's output
for that text does not — so the field is not produced by the domain
extractor. -/
theorem C3_counterexample :
    "handheld" ∈ (match_job_description none "Zebra handheld deployment" []).keywords ∧
    "handheld" ∉ extract_keywords_domain "Zebra handheld deployment" :=
  ⟨by decide, by decide⟩

/-- C3, amended: the `keywords` field of the job-matcher endpoint is
produced by the FREQUENCY extractor, not the domain extractor: the second
top-level `def extract_keywords` in `app.py` (line 1731, frequency) rebinds
the module name, shadowing the domain-vocabulary one (line 678), and the two
disagree (e.g. on `"Zebra handheld deployment"`). -/
theorem C3_amended :
    (∀ sims job comps,
      (match_job_description sims job comps).keywords = extract_keywords_freq job) ∧
    extract_keywords_domain "Zebra handheld deployment"
      ≠ extract_keywords_freq "Zebra handheld deployment" := by
  constructor
  · intro sims job comps
    cases sims <;> rfl
  · decide

/-- C4, counterexample: at similarity 0.666 the code stores
`int(0.666·100) = 66`, while the claim's `round(0.666·100)` is 67. -/
theorem C4_counterexample :
    (semantic_match_components [⟨"x", "", "", "", .pyNone, .pyNone⟩] [mkRat 333 500]).map
      (fun r => r.match_percentage) = [66] ∧
    round (mkRat 333 500 * 100) = 67 ∧ (66 : ℤ) ≠ 67 := by
  refine ⟨by decide, ?_, by decide⟩
  norm_num [round_eq, mkRat, Rat.normalize]

/-- C4, amended: a candidate is included iff its similarity is strictly
above 0.3 (0.3 itself is excluded), and every included candidate's
percentage is `int(similarity·100)` — truncation, not `round`. -/
theorem C4_amended :
    (∀ comps sims, ∀ r ∈ semantic_match_components comps sims,
      mkRat 3 10 < r.score ∧ r.match_percentage = pyInt100 r.score) ∧
    (∀ comps sims, (semantic_match_components comps sims).length
      = (comps.zip sims).countP (fun p => decide (mkRat 3 10 < p.2))) := by
  constructor
  · intro comps sims r hr
    exact mem_semantic_match_components hr
  · intro comps sims
    rw [semantic_match_components, length_sortDescB, semanticPre]
    exact length_filterMap_ite _

/-- C4, witness: similarity 0.31 is included with percentage 31; of the
pair (0.3, 0.31) exactly one candidate survives. -/
theorem C4_amended_witness :
    (mkRat 3 10 < mkRat 31 100 ∧ (31 : ℤ) = pyInt100 (mkRat 31 100)) ∧
    (semantic_match_components
        [⟨"a", "", "", "", .pyNone, .pyNone⟩, ⟨"b", "", "", "", .pyNone, .pyNone⟩]
        [mkRat 3 10, mkRat 31 100]).length
      = ([(⟨"a", "", "", "", .pyNone, .pyNone⟩ : Item), ⟨"b", "", "", "", .pyNone, .pyNone⟩].zip
          [mkRat 3 10, mkRat 31 100]).countP (fun p => decide (mkRat 3 10 < p.2)) := by
  constructor
  · have h := C4_amended.1
        [⟨"a", "", "", "", .pyNone, .pyNone⟩, ⟨"b", "", "", "", .pyNone, .pyNone⟩]
        [mkRat 3 10, mkRat 31 100]
        ⟨⟨"b", "", "", "", .pyNone, .pyNone⟩, mkRat 31 100, 31⟩ (by decide)
    exact ⟨h.1, h.2⟩
  · exact C4_amended.2 _ _

/-- C5: the claim (and §7 of the spec) requires a malformed technology/skill
field to only forfeit that field's bonus, never to abort the matching
operation — and `demo_project_matching.py` indeed guards the decode with
try/except.  But `app.py`'s `match_items_to_job` calls `json.loads`
unguarded (line 1647), so one malformed candidate raises and aborts the
whole call (the route returns the error): the code contradicts the spec's
stated requirement and its own demo implementation.  Here the first
candidate's malformed `"[broken"` field aborts everything even though both
candidates match the keyword; the demo matcher on the same items scores
both. -/
theorem C5_code_bug :
    match_items_to_job "Windows deployment"
        [⟨"windows box", "", "", "", .str "[broken", .pyNone⟩,
         ⟨"windows desk", "", "", "", .list ["Windows"], .pyNone⟩] "work_item"
      = .error () ∧
    (match_items_to_keywords
        [⟨"windows box", "", "", "", .str "[broken", .pyNone⟩,
         ⟨"windows desk", "", "", "", .list ["Windows"], .pyNone⟩] ["windows"] "work_item").map
      (fun r => r.score) = [1, 1] :=
  ⟨by decide, by decide⟩

/-- C6, counterexample: a work-item candidate whose technology list holds
the empty string gets the +2 bonus against the EMPTY job description (the
empty tag is a substring of everything), so the result list is not empty. -/
theorem C6_counterexample :
    match_items_to_job "" [⟨"t", "", "", "", .list [""], .pyNone⟩] "work_item" ≠ .ok [] ∧
    (match_items_to_job "" [⟨"t", "", "", "", .list [""], .pyNone⟩] "work_item").map
      (List.map (fun r => (r.score2, r.match_percentage))) = .ok [(4, 100)] :=
  ⟨by decide, by decide⟩

/-- C6, amended: the frequency extractor returns no keywords for the empty
text, and keyword-mode matching of the empty job description returns an
empty result list (without raising) PROVIDED every candidate's
technology/skill field decodes and holds no empty-string tag; a candidate
with an empty-string tag is returned with a bonus-only score. -/
theorem C6_amended :
    extract_keywords_freq "" = [] ∧
    ∀ items kind,
      (∀ it ∈ items,
        tagsOk it.technologies_used = true ∧ tagsOk it.skills_demonstrated = true) →
      match_items_to_job "" items kind = .ok [] := by
  refine ⟨rfl, ?_⟩
  intro items kind h
  exact match_items_to_job_empty h

/-- C6, witness: a concrete well-behaved work item yields no match against
the empty job description. -/
theorem C6_amended_witness :
    extract_keywords_freq "" = [] ∧
    match_items_to_job "" [⟨"srv", "", "", "", .list ["Windows"], .pyNone⟩] "work_item"
      = .ok [] := by
  refine ⟨C6_amended.1, C6_amended.2 _ "work_item" ?_⟩
  intro it hit
  have h1 : it = ⟨"srv", "", "", "", .list ["Windows"], .pyNone⟩ := List.mem_singleton.mp hit
  rw [h1]
  exact ⟨by decide, by decide⟩

/-- C7, counterexample: in `"ab1 cd"`, `"ab"` is a maximal run of 2+
alphabetic characters and not a stop word, so the claim's tokenization
would emit it — but the regex `\b[a-zA-Z]{2,}\b` rejects a letter run
adjacent to a digit (no word boundary), and the extractor returns only
`["cd"]`. -/
theorem C7_counterexample :
    "ab" ∈ specAlphaTokens (pyLower "ab1 cd") ∧ stopWords.contains "ab" = false ∧
    extract_keywords_freq "ab1 cd" = ["cd"] :=
  ⟨by decide, by decide, by decide⟩

/-- C7, amended: the frequency extractor tokenizes into maximal
letter-only word runs of length ≥ 2 NOT adjacent to digits or underscores
(the regex's `\b` boundaries), lowercased; removes the stop words;
deduplicates; orders by non-increasing raw (non-overlapping substring)
occurrence count in the lowered text; and returns at most 50 keywords,
all of them when fewer than 50 survive. -/
theorem C7_amended (text : String) :
    (extract_keywords_freq text).length ≤ 50 ∧
    (extract_keywords_freq text).Nodup ∧
    (∀ w ∈ extract_keywords_freq text,
      w ∈ freqTokens (pyLower text) ∧ stopWords.contains w = false) ∧
    (extract_keywords_freq text).Pairwise
      (fun a b => countOcc b.data (pyLower text).data
        ≤ countOcc a.data (pyLower text).data) ∧
    ((extract_keywords_freq text).length < 50 →
      ∀ w ∈ freqTokens (pyLower text), stopWords.contains w = false →
        w ∈ extract_keywords_freq text) :=
  ⟨freq_cap text, freq_nodup text, fun _ hw => freq_provenance hw, freq_sorted text,
   fun hlen => freq_complete hlen⟩

/-- C7, witness: the provenance and below-cap-completeness parts evaluated
on a concrete text. -/
theorem C7_amended_witness :
    ("window" ∈ freqTokens (pyLower "window ab window") ∧
      stopWords.contains "window" = false) ∧
    "window" ∈ extract_keywords_freq "window ab window" := by
  have h := C7_amended "window ab window"
  exact ⟨h.2.2.1 "window" (by decide),
    h.2.2.2.2 (by decide) "window" (by decide) (by decide)⟩

/-- C8: keyword-mode results are sorted by non-increasing raw score, and
equal-scored results keep the relative order of the pre-sort list, which is
built in candidate order — stability stated as: filtering any score level
commutes with the sort.  Both `match_items_to_job` and
`keyword_match_components` are covered. -/
theorem C8_sort_stable :
    (∀ job items kind pre, buildMatches job items kind = .ok pre →
      match_items_to_job job items kind = .ok (sortDescB mrLt pre) ∧
      (sortDescB mrLt pre).Pairwise (fun a b => b.score2 ≤ a.score2) ∧
      ∀ s : Nat, (sortDescB mrLt pre).filter (fun r => r.score2 == s)
        = pre.filter (fun r => r.score2 == s)) ∧
    (∀ job comps,
      (keyword_match_components job comps).Pairwise (fun a b => b.score ≤ a.score) ∧
      ∀ s : Nat, (keyword_match_components job comps).filter (fun r => r.score == s)
        = (kmcPre job comps).filter (fun r => r.score == s)) := by
  constructor
  · intro job items kind pre h
    refine ⟨match_items_to_job_eq_sort h, ?_, ?_⟩
    · refine (pairwise_sortDescB mrLt mrLt_asym mrLt_negtrans pre).imp ?_
      intro a b hab
      simp only [mrLt, ← Bool.not_eq_true, Nat.blt_eq] at hab
      omega
    · intro s
      refine filter_sortDescB mrLt _ ?_ pre
      intro a b hpa hlt
      simp only [beq_iff_eq] at hpa
      simp only [mrLt, Nat.blt_eq] at hlt
      simp only [← Bool.not_eq_true, beq_iff_eq]
      omega
  · intro job comps
    constructor
    · rw [keyword_match_components]
      refine (pairwise_sortDescB kmLt kmLt_asym kmLt_negtrans (kmcPre job comps)).imp ?_
      intro a b hab
      simp only [kmLt, ← Bool.not_eq_true, Nat.blt_eq] at hab
      omega
    · intro s
      rw [keyword_match_components]
      refine filter_sortDescB kmLt _ ?_ (kmcPre job comps)
      intro a b hpa hlt
      simp only [beq_iff_eq] at hpa
      simp only [kmLt, Nat.blt_eq] at hlt
      simp only [← Bool.not_eq_true, beq_iff_eq]
      omega

/-- C8, witness: two equal-scored candidates keep their input order. -/
theorem C8_witness :
    match_items_to_job "windows"
        [⟨"windows a", "", "", "", .pyNone, .pyNone⟩, ⟨"windows b", "", "", "", .pyNone, .pyNone⟩]
        "component"
      = .ok (sortDescB mrLt
        [⟨⟨"windows a", "", "", "", .pyNone, .pyNone⟩, 2, 100, ["windows"], "component"⟩,
         ⟨⟨"windows b", "", "", "", .pyNone, .pyNone⟩, 2, 100, ["windows"], "component"⟩]) ∧
    (sortDescB mrLt
        [⟨⟨"windows a", "", "", "", .pyNone, .pyNone⟩, 2, 100, ["windows"], "component"⟩,
         ⟨⟨"windows b", "", "", "", .pyNone, .pyNone⟩, 2, 100, ["windows"], "component"⟩]).Pairwise
      (fun a b => b.score2 ≤ a.score2) ∧
    ∀ s : Nat,
      (sortDescB mrLt
        [⟨⟨"windows a", "", "", "", .pyNone, .pyNone⟩, 2, 100, ["windows"], "component"⟩,
         ⟨⟨"windows b", "", "", "", .pyNone, .pyNone⟩, 2, 100, ["windows"], "component"⟩]).filter
        (fun r => r.score2 == s)
      = [⟨⟨"windows a", "", "", "", .pyNone, .pyNone⟩, 2, 100, ["windows"], "component"⟩,
         ⟨⟨"windows b", "", "", "", .pyNone, .pyNone⟩, 2, 100, ["windows"], "component"⟩].filter
        (fun r => r.score2 == s) :=
  C8_sort_stable.1 "windows"
    [⟨"windows a", "", "", "", .pyNone, .pyNone⟩, ⟨"windows b", "", "", "", .pyNone, .pyNone⟩]
    "component"
    [⟨⟨"windows a", "", "", "", .pyNone, .pyNone⟩, 2, 100, ["windows"], "component"⟩,
     ⟨⟨"windows b", "", "", "", .pyNone, .pyNone⟩, 2, 100, ["windows"], "component"⟩]
    (by decide)

/-- C9: no emitted MatchResult — in `match_items_to_job` (keyword mode with
bonuses), `keyword_match_components` (keyword mode), or
`semantic_match_components` (semantic mode) — has score ≤ 0. -/
theorem C9_zero_floor :
    (∀ job items kind ms, match_items_to_job job items kind = .ok ms →
      ∀ r ∈ ms, 0 < r.score2) ∧
    (∀ job comps, ∀ r ∈ keyword_match_components job comps, 0 < r.score) ∧
    (∀ comps sims, ∀ r ∈ semantic_match_components comps sims, 0 < r.score) := by
  refine ⟨?_, ?_, ?_⟩
  · intro job items kind ms h r hr
    exact (mem_match_items_to_job h hr).1
  · intro job comps r hr
    exact (mem_keyword_match_components hr).1
  · intro comps sims r hr
    have h := (mem_semantic_match_components hr).1
    have h0 : (0 : ℚ) < mkRat 3 10 := by decide
    exact lt_trans h0 h

/-- C9, witness: one concrete positive-score result per matcher. -/
theorem C9_witness :
    0 < (⟨⟨"t", "", "", "", .list [""], .pyNone⟩, 4, 100, [], "work_item"⟩
      : MatchResult).score2 ∧
    0 < (⟨⟨"windows", "", "", "", .pyNone, .pyNone⟩, 1, 50⟩ : CompMatchK).score ∧
    0 < (⟨⟨"x", "", "", "", .pyNone, .pyNone⟩, mkRat 31 100, 31⟩ : CompMatchS).score := by
  refine ⟨?_, ?_, ?_⟩
  · exact C9_zero_floor.1 "" [⟨"t", "", "", "", .list [""], .pyNone⟩] "work_item"
      [⟨⟨"t", "", "", "", .list [""], .pyNone⟩, 4, 100, [], "work_item"⟩] (by decide) _ (by decide)
  · exact C9_zero_floor.2.1 "windows support" [⟨"windows", "", "", "", .pyNone, .pyNone⟩]
      _ (by decide)
  · exact C9_zero_floor.2.2 [⟨"x", "", "", "", .pyNone, .pyNone⟩] [mkRat 31 100] _ (by decide)

/-- C10: `keyword_match_components` divides by `len(keywords)` only inside
the `score > 0` guard, and a positive score forces at least one extracted
keyword (each keyword contributes at most one point), so the division is
never by zero. -/
theorem C10_no_div_by_zero :
    ∀ job comps, ∀ r ∈ keyword_match_components job comps,
      0 < (extract_keywords_freq job).length := by
  intro job comps r hr
  obtain ⟨h0, hle, _⟩ := mem_keyword_match_components hr
  omega

/-- C10, witness: a concrete emitted result with its nonempty keyword
list. -/
theorem C10_witness : 0 < (extract_keywords_freq "windows support").length :=
  C10_no_div_by_zero "windows support" [⟨"windows", "", "", "", .pyNone, .pyNone⟩]
    ⟨⟨"windows", "", "", "", .pyNone, .pyNone⟩, 1, 50⟩ (by decide)
end RDB
